import Mathlib

/-!
Shallow embedding of the rule engine of `a_brick_code_analyzer`
(`src/a_brick_code_analyzer/rules/{base,engine,config,result}.py` and the
built-in rules in `rules/builtin/`), together with theorems settling the
spec claims about configuration resolution, rule activation, lint
aggregation and the built-in rule bodies.
-/

namespace ABrick

/-! ## A model of Python `dict` (insertion ordered) -/

/-- Lookup of the first entry with the given key in an association list. -/
def lookupList {V : Type} (k : String) : List (String × V) → Option V
  | [] => none
  | p :: rest => if p.1 == k then some p.2 else lookupList k rest

/-- Key membership in an association list. -/
def containsList {V : Type} (k : String) : List (String × V) → Bool
  | [] => false
  | p :: rest => p.1 == k || containsList k rest

/-- Replace the value stored under an existing key, keeping its position. -/
def replaceList {V : Type} (k : String) (v : V) : List (String × V) → List (String × V)
  | [] => []
  | p :: rest => if p.1 == k then (k, v) :: replaceList k v rest else p :: replaceList k v rest

/-- CPython `d[k] = v`: update in place when the key exists, else append. -/
def setList {V : Type} (k : String) (v : V) (es : List (String × V)) : List (String × V) :=
  if containsList k es then replaceList k v es else es ++ [(k, v)]

/-- A Python `dict` with `String` keys: entries in insertion order. -/
structure PyDict (V : Type) where
  entries : List (String × V)
deriving DecidableEq

namespace PyDict

variable {V : Type}

/-- The empty dict `{}`. -/
def empty : PyDict V := ⟨[]⟩

/-- Python `d.get(k)` / `d[k]` as an `Option`. -/
def get (d : PyDict V) (k : String) : Option V := lookupList k d.entries

/-- Python `k in d`. -/
def contains (d : PyDict V) (k : String) : Bool := containsList k d.entries

/-- Python `d[k] = v`. -/
def set (d : PyDict V) (k : String) (v : V) : PyDict V := ⟨setList k v d.entries⟩

/-- Python `del d[k]` (guarded by a `k in d` test, so absent keys are a no-op). -/
def erase (d : PyDict V) (k : String) : PyDict V := ⟨d.entries.filter (fun p => p.1 != k)⟩

/-- Python `d.update(other)`: set every entry of `other` into `d` in order. -/
def update (d other : PyDict V) : PyDict V :=
  other.entries.foldl (fun acc p => acc.set p.1 p.2) d

/-- Python `list(d.keys())`. -/
def keys (d : PyDict V) : List String := d.entries.map Prod.fst

/-- Python `list(d.values())`. -/
def values (d : PyDict V) : List V := d.entries.map Prod.snd

/-- A dict built by Python operations never holds two entries for one key. -/
def nodupKeys (d : PyDict V) : Prop := d.keys.Nodup

instance (d : PyDict V) : Decidable d.nodupKeys := by
  unfold nodupKeys; infer_instance

end PyDict

/-- The value a key ends up with when a second lookup overrides a first:
the overriding value when present, the earlier one otherwise. -/
def pickLater {V : Type} (acc o : Option V) : Option V :=
  match o with
  | some v => some v
  | none => acc

/-! ## Data model (`base.py` at package top level, and `rules/base.py`) -/

/-- Python `s.upper()` restricted to the ASCII names this code base feeds
it. -/
def pyUpper (s : String) : String := String.mk (s.data.map Char.toUpper)

/-- Python `s.lower()` restricted to the ASCII tags this code base feeds
it. -/
def pyLower (s : String) : String := String.mk (s.data.map Char.toLower)

/-- Severity levels of `rules/base.py` (`OFF = 0`, `WARN = 1`, `ERROR = 2`). -/
inductive Severity where
  | OFF
  | WARN
  | ERROR
deriving DecidableEq, Repr

/-- Python value of each `Severity` member. -/
def Severity.value : Severity → Int
  | .OFF => 0
  | .WARN => 1
  | .ERROR => 2

/-- A raw severity value as found in a configuration document: an
already-typed `Severity`, an integer ordinal, a string name, or any other
dynamic value. -/
inductive SevValue where
  | sev (s : Severity)
  | int (i : Int)
  | str (s : String)
  | other
deriving DecidableEq, Repr

/-- An option value stored in a rule's options dict (the repository only
stores integers and strings there). -/
inductive OptVal where
  | int (i : Int)
  | str (s : String)
deriving DecidableEq, Repr

/-- A rule's options mapping. -/
abbrev Options := PyDict OptVal

/-- Python `options.get(key, default)` where an integer is expected.  A value
of another runtime type is treated as absent. -/
def optInt (o : Options) (k : String) (dflt : Int) : Int :=
  match o.get k with
  | some (OptVal.int i) => i
  | _ => dflt

/-- Python `options.get(key, default)` where a string is expected.  A value
of another runtime type is treated as absent. -/
def optStr (o : Options) (k : String) (dflt : String) : String :=
  match o.get k with
  | some (OptVal.str s) => s
  | _ => dflt

/-- AST node kinds (`NodeType` in `base.py`). -/
inductive NodeType where
  | FUNCTION
  | CLASS
  | METHOD
  | VARIABLE
  | IMPORT
  | MODULE
deriving DecidableEq, Repr

/-- The `.value` string of each `NodeType` member. -/
def NodeType.value : NodeType → String
  | .FUNCTION => "function"
  | .CLASS => "class"
  | .METHOD => "method"
  | .VARIABLE => "variable"
  | .IMPORT => "import"
  | .MODULE => "module"

/-- A code node (`CodeNode` in `base.py`); only the fields the rules read. -/
structure CodeNode where
  node_type : NodeType
  name : String
  line_start : Int
  line_end : Int
  complexity : Int := 0
  params : List String := []
  decorators : List String := []
  docstring : Option String := none
deriving DecidableEq, Repr

/-- A parse result (`ParseResult` in `base.py`). -/
structure ParseResult where
  file_path : String
  language : String
  nodes : List CodeNode := []
  imports : List String := []
  total_lines : Int := 0
  code_lines : Int := 0
  comment_lines : Int := 0
  blank_lines : Int := 0
  errors : List String := []
deriving DecidableEq, Repr

/-- A metadata value attached to a violation: the built-in rules store
integers, strings and lists of strings. -/
inductive MetaVal where
  | int (i : Int)
  | str (s : String)
  | strList (l : List String)
deriving DecidableEq, Repr

/-- The fields a rule body passes to `create_violation`; `rule_id` and
`severity` are stamped by `create_violation` itself from the instance. -/
structure VioPayload where
  message : String
  file_path : String
  line_start : Int
  line_end : Int
  node_name : Option String := none
  node_type : Option String := none
  suggestion : Option String := none
  metadata : List (String × MetaVal) := []
deriving DecidableEq, Repr

/-- A rule violation (`RuleViolation` in `rules/base.py`). -/
structure RuleViolation where
  rule_id : String
  severity : Severity
  message : String
  file_path : String
  line_start : Int
  line_end : Int
  column_start : Option Int := none
  column_end : Option Int := none
  node_name : Option String := none
  node_type : Option String := none
  suggestion : Option String := none
  metadata : List (String × MetaVal) := []
deriving DecidableEq, Repr

/-- The body of `BaseRule.create_violation`: stamp the emitting instance's
rule id and severity onto the payload. -/
def createViolation (rid : String) (sev : Severity) (p : VioPayload) : RuleViolation :=
  { rule_id := rid
    severity := sev
    message := p.message
    file_path := p.file_path
    line_start := p.line_start
    line_end := p.line_end
    node_name := p.node_name
    node_type := p.node_type
    suggestion := p.suggestion
    metadata := p.metadata }

/-- The two shapes of `check` in the repository: `NodeRule` subclasses give
`target_node_types` and a `check_node` body; the structural rules override
`check` on the whole parse result directly. -/
inductive CheckKind where
  | nodeTargeted (targets : List NodeType)
      (checkNode : Options → CodeNode → ParseResult → List VioPayload)
  | wholeFile (checkFile : Options → ParseResult → List VioPayload)

/-- Target node kinds of a rule (`[]` for whole-file rules). -/
def targetsOf : CheckKind → List NodeType
  | .nodeTargeted t _ => t
  | .wholeFile _ => []

/-- A rule class: the class-level metadata of `BaseRule` subclasses plus the
`check`/`check_node` body. -/
structure RuleClass where
  rule_id : String
  name : String := ""
  description : String := ""
  category : String := ""
  default_severity : Severity := Severity.WARN
  default_options : Options := PyDict.empty
  supported_languages : List String := []
  kind : CheckKind

/-- A constructed rule object: its class plus the resolved severity and the
merged options (`BaseRule.__init__`). -/
structure RuleInstance where
  cls : RuleClass
  severity : Severity
  options : Options

/-- The body of `BaseRule.__init__`: severity falls back to the class
default when `None`; options are the class defaults overlaid with the
supplied dict (`{**default_options, **(options or {})}`). -/
def mkRule (cls : RuleClass) (sev : Option Severity) (opts : Option Options) : RuleInstance :=
  { cls := cls
    severity := sev.getD cls.default_severity
    options := cls.default_options.update (opts.getD PyDict.empty) }

/-- The body of `BaseRule.is_enabled`. -/
def RuleInstance.isEnabled (r : RuleInstance) : Bool :=
  r.severity != Severity.OFF

/-- The body of `BaseRule.supports_language`: an empty list supports every
language, otherwise membership is tested case-insensitively. -/
def supportsLanguage (langs : List String) (lang : String) : Bool :=
  langs.isEmpty || langs.any (fun l => pyLower l == pyLower lang)

/-- Whether `NodeRule._should_check_node` accepts a node. -/
def shouldCheckNode (targets : List NodeType) (n : CodeNode) : Bool :=
  targets.isEmpty || targets.contains n.node_type

/-- Run a rule's `check` body.  Node-targeted rules re-test language support
and iterate `parse_result.nodes` filtered by target kinds
(`NodeRule.check`); whole-file rules run their overridden `check` directly. -/
def checkKindRun (kind : CheckKind) (langs : List String) (opts : Options)
    (pr : ParseResult) : List VioPayload :=
  match kind with
  | .wholeFile f => f opts pr
  | .nodeTargeted targets f =>
    if supportsLanguage langs pr.language then
      (pr.nodes.filter (shouldCheckNode targets)).flatMap (fun n => f opts n pr)
    else []

/-- Run a constructed rule on a parse result, stamping each emitted payload
through `create_violation`. -/
def RuleInstance.runCheck (r : RuleInstance) (pr : ParseResult) : List RuleViolation :=
  (checkKindRun r.cls.kind r.cls.supported_languages r.options pr).map
    (createViolation r.cls.rule_id r.severity)

/-! ## Lint results (`rules/result.py`) -/

/-- A single file's lint result. -/
structure LintResult where
  file_path : String
  violations : List RuleViolation := []
  error_count : Nat := 0
  warning_count : Nat := 0
  parse_errors : List String := []
deriving DecidableEq, Repr

/-- The body of `LintResult.add_violation`: append and bump the counter of
the violation's severity class. -/
def LintResult.addViolation (r : LintResult) (v : RuleViolation) : LintResult :=
  let r2 := { r with violations := r.violations ++ [v] }
  match v.severity with
  | Severity.ERROR => { r2 with error_count := r2.error_count + 1 }
  | Severity.WARN => { r2 with warning_count := r2.warning_count + 1 }
  | Severity.OFF => r2

/-- The body of `LintResult.has_issues`. -/
def LintResult.hasIssues (r : LintResult) : Bool :=
  !r.violations.isEmpty || !r.parse_errors.isEmpty

/-- An aggregate lint report over several files. -/
structure LintReport where
  results : List LintResult := []
deriving DecidableEq, Repr

/-- The body of `LintReport.add_result`. -/
def LintReport.addResult (rep : LintReport) (r : LintResult) : LintReport :=
  { rep with results := rep.results ++ [r] }

/-- The `total_errors` property. -/
def LintReport.totalErrors (rep : LintReport) : Nat :=
  (rep.results.map (fun r => r.error_count)).sum

/-- The `total_warnings` property. -/
def LintReport.totalWarnings (rep : LintReport) : Nat :=
  (rep.results.map (fun r => r.warning_count)).sum

/-- The `total_violations` property. -/
def LintReport.totalViolations (rep : LintReport) : Nat :=
  (rep.results.map (fun r => r.violations.length)).sum

/-- The `files_with_issues` property. -/
def LintReport.filesWithIssues (rep : LintReport) : Nat :=
  rep.results.countP (fun r => r.hasIssues)

/-- The `total_files` property. -/
def LintReport.totalFiles (rep : LintReport) : Nat :=
  rep.results.length

/-! ## Configuration (`rules/config.py`) -/

/-- One resolved `{severity, options}` record in a configuration's rule map. -/
structure RuleEntry where
  severity : SevValue
  options : Options
deriving DecidableEq

/-- A rule engine configuration (`RuleConfig`). -/
structure RuleConfig where
  rules : PyDict RuleEntry := PyDict.empty
  ignorePatterns : List String := []
  extendsList : List String := []
  plugins : List String := []

/-- The body of `RuleConfig.parse_severity`: accept an already-typed value,
an integer ordinal, or a case-insensitive member name; `none` models the
exception raised on an invalid ordinal or name; any other runtime type
falls back to `WARN`. -/
def parseSeverity : SevValue → Option Severity
  | .sev s => some s
  | .int i =>
    if i = 0 then some Severity.OFF
    else if i = 1 then some Severity.WARN
    else if i = 2 then some Severity.ERROR
    else none
  | .str s =>
    if pyUpper s == "OFF" then some Severity.OFF
    else if pyUpper s == "WARN" then some Severity.WARN
    else if pyUpper s == "ERROR" then some Severity.ERROR
    else none
  | .other => some Severity.WARN

/-- Convenience for writing the presets' `{'max': n}` option dicts. -/
def maxOpt (n : Int) : Options := ⟨[("max", OptVal.int n)]⟩

/-- Convenience for writing the presets' `{'style': s}` option dicts. -/
def styleOpt (s : String) : Options := ⟨[("style", OptVal.str s)]⟩

/-- Convenience for writing a `{severity, options}` record with a string
severity, as the presets do. -/
def sentry (sev : String) (o : Options) : RuleEntry := ⟨SevValue.str sev, o⟩

/-- The `recommended` preset (`RuleConfig._get_recommended_config`). -/
def recommendedConfig : RuleConfig :=
  { rules := ⟨[
      ("complexity/max-complexity", sentry "warn" (maxOpt 10)),
      ("complexity/max-function-lines", sentry "warn" (maxOpt 50)),
      ("complexity/max-params", sentry "warn" (maxOpt 5)),
      ("naming/function-naming", sentry "warn" (styleOpt "snake_case")),
      ("naming/class-naming", sentry "warn" (styleOpt "PascalCase")),
      ("structure/max-file-lines", sentry "warn" (maxOpt 500)),
      ("structure/max-classes-per-file", sentry "warn" (maxOpt 5)),
      ("structure/max-functions-per-file", sentry "warn" (maxOpt 20))]⟩ }

/-- The `strict` preset (`RuleConfig._get_strict_config`). -/
def strictConfig : RuleConfig :=
  { rules := ⟨[
      ("complexity/max-complexity", sentry "error" (maxOpt 8)),
      ("complexity/max-function-lines", sentry "error" (maxOpt 30)),
      ("complexity/max-params", sentry "error" (maxOpt 4)),
      ("naming/function-naming", sentry "error" (styleOpt "snake_case")),
      ("naming/class-naming", sentry "error" (styleOpt "PascalCase")),
      ("structure/max-file-lines", sentry "error" (maxOpt 300)),
      ("structure/max-classes-per-file", sentry "error" (maxOpt 3)),
      ("structure/max-functions-per-file", sentry "error" (maxOpt 10))]⟩ }

/-- The `minimal` preset (`RuleConfig._get_minimal_config`). -/
def minimalConfig : RuleConfig :=
  { rules := ⟨[("complexity/max-complexity", sentry "error" (maxOpt 15))]⟩ }

/-- The body of `RuleConfig._load_preset`: the three named presets, with an
unknown name yielding an empty configuration. -/
def loadPreset (name : String) : RuleConfig :=
  if name == "recommended" then recommendedConfig
  else if name == "strict" then strictConfig
  else if name == "minimal" then minimalConfig
  else {}

/-- A raw per-rule value in a configuration document, in the ESLint-style
shapes `_parse_rule_config` accepts: a bare severity scalar, a list whose
first element is the severity and optional second element the options, a
`{severity, options}` dict with either key possibly absent, or any other
runtime value. -/
inductive RawRuleConfig where
  | scalar (v : SevValue)
  | listForm (sev : Option SevValue) (opts : Option Options)
  | dictForm (sev : Option SevValue) (opts : Option Options)
  | otherForm
deriving DecidableEq

/-- The body of `RuleConfig._parse_rule_config`: normalize every accepted
shape to a full `{severity, options}` record, defaulting the severity to
`'warn'` and the options to `{}`. -/
def parseRuleConfig : RawRuleConfig → RuleEntry
  | .scalar v => ⟨v, PyDict.empty⟩
  | .listForm sev opts => ⟨sev.getD (SevValue.str "warn"), opts.getD PyDict.empty⟩
  | .dictForm sev opts => ⟨sev.getD (SevValue.str "warn"), opts.getD PyDict.empty⟩
  | .otherForm => ⟨SevValue.str "warn", PyDict.empty⟩

/-- A raw configuration document, after JSON/YAML decoding, with the
`extends` field already normalized from a bare string to a list. -/
structure ConfigData where
  extendsList : List String := []
  rules : PyDict RawRuleConfig := PyDict.empty
  ignorePatterns : List String := []
  plugins : List String := []

/-- The body of `RuleConfig._from_dict`: start from an empty rule map,
`update` it with each extended preset's rules left to right, then assign
each parsed entry of the document's own `rules` section. -/
def RuleConfig.fromDict (data : ConfigData) : RuleConfig :=
  let merged := data.extendsList.foldl
    (fun acc n => acc.update (loadPreset n).rules) (PyDict.empty : PyDict RuleEntry)
  let withOwn := data.rules.entries.foldl
    (fun acc p => acc.set p.1 (parseRuleConfig p.2)) merged
  { rules := withOwn
    ignorePatterns := data.ignorePatterns
    extendsList := data.extendsList
    plugins := data.plugins }

/-! ## The engine (`rules/engine.py`) -/

/-- The engine state: the registry `_rule_classes`, the materialized
instances `_rules`, and the loaded `_config`. -/
structure EngineState where
  rule_classes : PyDict RuleClass
  rules : PyDict RuleInstance
  config : Option RuleConfig

/-- The body of `RuleEngine.__init__`. -/
def emptyEngine : EngineState :=
  { rule_classes := PyDict.empty, rules := PyDict.empty, config := none }

/-- The body of `RuleEngine.register_rule`: store the class under its own
`rule_id`. -/
def registerRule (e : EngineState) (cls : RuleClass) : EngineState :=
  { e with rule_classes := e.rule_classes.set cls.rule_id cls }

/-- How `_apply_config` handles one registered id: `some none` removes the
instance (severity resolved to OFF), `some (some inst)` materializes `inst`,
and `none` models the exception raised by an unparseable severity. -/
def resolveEntry (cfg : RuleConfig) (rid : String) (cls : RuleClass) :
    Option (Option RuleInstance) :=
  match cfg.rules.get rid with
  | none => some (some (mkRule cls none none))
  | some entry =>
    match parseSeverity entry.severity with
    | none => none
    | some sev =>
      if sev = Severity.OFF then some none
      else some (some (mkRule cls (some sev) (some entry.options)))

/-- One iteration of the `_apply_config` loop over the registry: skip the
id when its severity resolved to OFF, store the materialized instance
otherwise, and propagate a severity-parsing failure. -/
def applyStep (cfg : RuleConfig) (acc : Option (PyDict RuleInstance))
    (p : String × RuleClass) : Option (PyDict RuleInstance) :=
  acc.bind (fun rules =>
    match resolveEntry cfg p.1 p.2 with
    | none => none
    | some none => some rules
    | some (some inst) => some (rules.set p.1 inst))

/-- The body of `RuleEngine._apply_config` given a loaded config: clear
`_rules` and rebuild it by iterating the registry in insertion order,
materializing each rule whose resolved severity is not OFF.  `none` models
the exception raised on an invalid severity value. -/
def applyConfigCore (cfg : RuleConfig) (classes : PyDict RuleClass) :
    Option (PyDict RuleInstance) :=
  classes.entries.foldl (applyStep cfg) (some PyDict.empty)

/-- Loading a configuration and applying it (`load_config`/`use_preset`
followed by `_apply_config`). -/
def applyConfigE (e : EngineState) (cfg : RuleConfig) : Option EngineState :=
  (applyConfigCore cfg e.rule_classes).map
    (fun rs => { e with rules := rs, config := some cfg })

/-- The body of `RuleEngine.configure_rule`: an unregistered id raises
`ValueError`; severity OFF deletes the instance; otherwise a fresh instance
is constructed with the given severity (or the class default) and options
(or `{}`). -/
def configureRule (e : EngineState) (rid : String) (sev : Option Severity)
    (opts : Option Options) : Except String EngineState :=
  match e.rule_classes.get rid with
  | none => Except.error ("未知规则: " ++ rid)
  | some cls =>
    if sev = some Severity.OFF then
      Except.ok { e with rules := e.rules.erase rid }
    else
      Except.ok { e with rules := e.rules.set rid (mkRule cls sev opts) }

/-- The body of `RuleEngine.get_rule`. -/
def getRule (e : EngineState) (rid : String) : Option RuleInstance :=
  e.rules.get rid

/-- The body of `RuleEngine.get_registered_rules`. -/
def getRegisteredRules (e : EngineState) : List String :=
  e.rule_classes.keys

/-- The body of `RuleEngine.lint`: seed a result with the parse errors, then
fold every enabled, language-matching instance's violations into it in
`_rules` iteration order. -/
def lint (e : EngineState) (pr : ParseResult) : LintResult :=
  let r0 : LintResult := { file_path := pr.file_path, parse_errors := pr.errors }
  e.rules.values.foldl
    (fun res rule =>
      if rule.isEnabled && supportsLanguage rule.cls.supported_languages pr.language then
        (rule.runCheck pr).foldl LintResult.addViolation res
      else res)
    r0

/-- An engine whose instance map is restricted to its enabled instances. -/
def enabledOnly (e : EngineState) : EngineState :=
  { e with rules := ⟨e.rules.entries.filter (fun p => p.2.isEnabled)⟩ }

/-! ## Built-in rules needed by the claims (`rules/builtin/`) -/

/-- The body of `MaxParamsRule.check_node`: drop the reserved names `self`
and `cls` from `node.params` and report when the remainder exceeds
`options.max` (default 5). -/
def maxParamsCheckNode (opts : Options) (node : CodeNode) (pr : ParseResult) :
    List VioPayload :=
  let maxParams := optInt opts "max" 5
  let params := node.params.filter (fun p => p != "self" && p != "cls")
  let actual : Int := params.length
  if actual > maxParams then
    [{ message := "函数 '" ++ node.name ++ "' 有 " ++ toString actual
         ++ " 个参数（最大允许 " ++ toString maxParams ++ "）"
       file_path := pr.file_path
       line_start := node.line_start
       line_end := node.line_end
       node_name := some node.name
       node_type := some node.node_type.value
       suggestion := some "考虑使用配置对象或数据类来减少参数数量"
       metadata := [("actual", MetaVal.int actual), ("max", MetaVal.int maxParams),
                    ("params", MetaVal.strList params)] }]
  else []

/-- The `MaxParamsRule` class. -/
def maxParamsCls : RuleClass :=
  { rule_id := "complexity/max-params"
    name := "最大参数数量"
    description := "限制函数的参数数量"
    category := "complexity"
    default_severity := Severity.WARN
    default_options := maxOpt 5
    kind := CheckKind.nodeTargeted [NodeType.FUNCTION, NodeType.METHOD] maxParamsCheckNode }

/-- Whether the first character of a name matches `[a-z_]` and the rest
match `[a-z0-9_]`, i.e. the body of the `snake_case` pattern. -/
def snakeCore (s : String) : Bool :=
  match s.data with
  | [] => false
  | c :: cs => (c.isLower || c == '_') && cs.all (fun d => d.isLower || d.isDigit || d == '_')

/-- The body of the `camelCase` pattern `^[a-z][a-zA-Z0-9]*$`. -/
def camelCore (s : String) : Bool :=
  match s.data with
  | [] => false
  | c :: cs => c.isLower && cs.all (fun d => d.isAlphanum)

/-- The body of the `PascalCase` pattern `^[A-Z][a-zA-Z0-9]*$`. -/
def pascalCore (s : String) : Bool :=
  match s.data with
  | [] => false
  | c :: cs => c.isUpper && cs.all (fun d => d.isAlphanum)

/-- The body of the dunder exemption pattern `^__.*__$`: a leading and a
trailing double underscore around a middle that `.` can match (no
newlines). -/
def dunderCore (s : String) : Bool :=
  decide (s.data.length ≥ 4) && s.data.take 2 == ['_', '_']
    && s.data.drop (s.data.length - 2) == ['_', '_']
    && ((s.data.drop 2).dropLast.dropLast).all (fun c => c != '\n')

/-- Python `re.match(p + '$', s)` semantics for a fully anchored pattern:
`$` also matches just before one newline at the very end of the string. -/
def pyFullMatch (core : String → Bool) (s : String) : Bool :=
  core s || (s.data.getLast? == some '\n' && core (String.mk s.data.dropLast))

/-- The `FunctionNamingRule.PATTERNS` table. -/
def patternOf (style : String) : Option String :=
  if style == "snake_case" then some "^[a-z_][a-z0-9_]*$"
  else if style == "camelCase" then some "^[a-z][a-zA-Z0-9]*$"
  else if style == "PascalCase" then some "^[A-Z][a-zA-Z0-9]*$"
  else none

/-- Evaluate one of the three table patterns against a name. -/
def patMatches (pat : String) (s : String) : Bool :=
  if pat == "^[a-z_][a-z0-9_]*$" then pyFullMatch snakeCore s
  else if pat == "^[a-z][a-zA-Z0-9]*$" then pyFullMatch camelCore s
  else if pat == "^[A-Z][a-zA-Z0-9]*$" then pyFullMatch pascalCore s
  else false

/-- The body of `FunctionNamingRule.check_node`: no violation when the style
has no pattern in the table; names matching the dunder shape are exempt;
otherwise a violation is emitted exactly when the name fails the selected
pattern. -/
def functionNamingCheckNode (opts : Options) (node : CodeNode) (pr : ParseResult) :
    List VioPayload :=
  let style := optStr opts "style" "snake_case"
  match patternOf style with
  | none => []
  | some pat =>
    if pyFullMatch dunderCore node.name then []
    else if patMatches pat node.name then []
    else
      [{ message := "函数 '" ++ node.name ++ "' 不符合 " ++ style ++ " 命名规范"
         file_path := pr.file_path
         line_start := node.line_start
         line_end := node.line_end
         node_name := some node.name
         node_type := some node.node_type.value
         suggestion := some ("重命名以符合 " ++ style ++ " 规范")
         metadata := [("style", MetaVal.str style), ("pattern", MetaVal.str pat)] }]

/-- The `FunctionNamingRule` class. -/
def functionNamingCls : RuleClass :=
  { rule_id := "naming/function-naming"
    name := "函数命名规范"
    description := "强制函数遵循命名规范"
    category := "naming"
    default_severity := Severity.WARN
    default_options := styleOpt "snake_case"
    kind := CheckKind.nodeTargeted [NodeType.FUNCTION, NodeType.METHOD]
      functionNamingCheckNode }

/-! ## Association-list lemmas for the dict model -/

theorem containsList_eq_false_iff {V : Type} (k : String) :
    ∀ es : List (String × V), containsList k es = false ↔ k ∉ es.map Prod.fst := by
  intro es
  induction es with
  | nil => simp [containsList]
  | cons p tl ih =>
    simp only [containsList, List.map_cons, List.mem_cons, Bool.or_eq_false_iff, ih,
      beq_eq_false_iff_ne]
    constructor
    · rintro ⟨h1, h2⟩ h
      rcases h with h | h
      · exact h1 h.symm
      · exact h2 h
    · intro h
      exact ⟨fun h1 => h (Or.inl h1.symm), fun h2 => h (Or.inr h2)⟩

theorem lookupList_eq_none {V : Type} (k : String) :
    ∀ es : List (String × V), containsList k es = false → lookupList k es = none := by
  intro es
  induction es with
  | nil => intro _; rfl
  | cons p tl ih =>
    intro h
    simp only [containsList, Bool.or_eq_false_iff] at h
    simp only [lookupList, h.1, if_false]
    exact ih h.2

theorem lookupList_append_of_not_contains {V : Type} (k : String) :
    ∀ es : List (String × V), containsList k es = false →
      ∀ tl, lookupList k (es ++ tl) = lookupList k tl := by
  intro es
  induction es with
  | nil => intro _ tl; rfl
  | cons p rest ih =>
    intro h tl
    simp only [containsList, Bool.or_eq_false_iff] at h
    simp only [List.cons_append, lookupList, h.1, if_false]
    exact ih h.2 tl

theorem lookupList_replaceList_self {V : Type} (k : String) (v : V) :
    ∀ es : List (String × V), containsList k es = true →
      lookupList k (replaceList k v es) = some v := by
  intro es
  induction es with
  | nil => intro h; simp [containsList] at h
  | cons p rest ih =>
    intro h
    by_cases hpk : p.1 == k
    · simp [replaceList, hpk, lookupList]
    · simp only [containsList, Bool.or_eq_true] at h
      rcases h with h | h
      · exact absurd h hpk
      · simp only [replaceList, hpk, if_false, lookupList]
        simpa using ih h

theorem lookupList_replaceList_ne {V : Type} (k k' : String) (v : V) (hne : k' ≠ k) :
    ∀ es : List (String × V), lookupList k' (replaceList k v es) = lookupList k' es := by
  intro es
  induction es with
  | nil => rfl
  | cons p rest ih =>
    by_cases hpk : p.1 == k
    · have hp : p.1 = k := by simpa using hpk
      simp only [replaceList, hpk, if_true, lookupList]
      rw [if_neg (by simp [Ne.symm hne]), if_neg (by simp [hp, Ne.symm hne])]
      exact ih
    · simp only [replaceList, hpk, if_false, lookupList]
      by_cases hpk' : p.1 == k'
      · simp [hpk']
      · simp only [hpk', if_false]
        exact ih

theorem lookupList_setList_self {V : Type} (k : String) (v : V) (es : List (String × V)) :
    lookupList k (setList k v es) = some v := by
  unfold setList
  by_cases h : containsList k es
  · rw [if_pos h]
    exact lookupList_replaceList_self k v es h
  · rw [if_neg h]
    rw [lookupList_append_of_not_contains k es (by simpa using h)]
    simp [lookupList]

theorem lookupList_append_single_ne {V : Type} (k k' : String) (v : V) (hne : k' ≠ k) :
    ∀ es : List (String × V), lookupList k' (es ++ [(k, v)]) = lookupList k' es := by
  intro es
  induction es with
  | nil => simp [lookupList, Ne.symm hne]
  | cons p rest ih =>
    simp only [List.cons_append, lookupList]
    by_cases hpk' : p.1 == k'
    · simp [hpk']
    · simp only [hpk', if_false]
      exact ih

theorem lookupList_setList_ne {V : Type} (k k' : String) (v : V) (hne : k' ≠ k)
    (es : List (String × V)) : lookupList k' (setList k v es) = lookupList k' es := by
  unfold setList
  by_cases h : containsList k es
  · rw [if_pos h]
    exact lookupList_replaceList_ne k k' v hne es
  · rw [if_neg h]
    exact lookupList_append_single_ne k k' v hne es

theorem containsList_replaceList {V : Type} (k k2 : String) (v : V) :
    ∀ es : List (String × V), containsList k2 (replaceList k v es) = containsList k2 es := by
  intro es
  induction es with
  | nil => rfl
  | cons p rest ih =>
    by_cases hpk : p.1 == k
    · have hp : p.1 = k := by simpa using hpk
      simp [replaceList, hpk, containsList, ih, hp]
    · simp [replaceList, hpk, containsList, ih]

theorem containsList_append_single {V : Type} (k k2 : String) (v : V) :
    ∀ es : List (String × V),
      containsList k2 (es ++ [(k, v)]) = (containsList k2 es || k == k2) := by
  intro es
  induction es with
  | nil => simp [containsList, BEq.comm]
  | cons p rest ih =>
    simp [containsList, ih, Bool.or_assoc]

theorem containsList_setList {V : Type} (k k2 : String) (v : V) (es : List (String × V)) :
    containsList k2 (setList k v es) = (containsList k2 es || k == k2) := by
  unfold setList
  by_cases h : containsList k es
  · rw [if_pos h, containsList_replaceList]
    by_cases hk : k == k2
    · have : k = k2 := by simpa using hk
      subst this
      simp [h, hk]
    · simp [hk]
  · rw [if_neg h]
    exact containsList_append_single k k2 v es

namespace PyDict

variable {V : Type}

theorem get_set_self (d : PyDict V) (k : String) (v : V) : (d.set k v).get k = some v :=
  lookupList_setList_self k v d.entries

theorem get_set_ne (d : PyDict V) (k k' : String) (v : V) (hne : k' ≠ k) :
    (d.set k v).get k' = d.get k' :=
  lookupList_setList_ne k k' v hne d.entries

theorem get_erase_self (d : PyDict V) (k : String) : (d.erase k).get k = none := by
  apply lookupList_eq_none
  rw [containsList_eq_false_iff]
  intro h
  rcases List.mem_map.mp h with ⟨p, hp, hk⟩
  rcases List.mem_filter.mp hp with ⟨_, hne⟩
  simp only [bne_iff_ne, ne_eq] at hne
  exact hne hk

theorem get_erase_ne (d : PyDict V) (k k' : String) (hne : k' ≠ k) :
    (d.erase k).get k' = d.get k' := by
  show lookupList k' (d.entries.filter fun p => p.1 != k) = lookupList k' d.entries
  induction d.entries with
  | nil => rfl
  | cons p rest ih =>
    by_cases hpk : p.1 == k
    · have hp : p.1 = k := by simpa using hpk
      rw [List.filter_cons_of_neg (by simp [hp])]
      rw [ih]
      simp [lookupList, hp, Ne.symm hne]
    · rw [List.filter_cons_of_pos (by simpa using hpk)]
      simp only [lookupList]
      by_cases hpk' : p.1 == k'
      · simp [hpk']
      · simp only [hpk', if_false]
        exact ih

theorem get_empty (k : String) : (PyDict.empty : PyDict V).get k = none := rfl

theorem entries_set_of_not_contains (d : PyDict V) (k : String) (v : V)
    (h : d.contains k = false) : (d.set k v).entries = d.entries ++ [(k, v)] := by
  show setList k v d.entries = d.entries ++ [(k, v)]
  unfold setList
  rw [if_neg (by simp [PyDict.contains] at h; simp [h])]

end PyDict

/-! ## Lint result lemmas -/

theorem addViolation_violations (r : LintResult) (v : RuleViolation) :
    (r.addViolation v).violations = r.violations ++ [v] := by
  unfold LintResult.addViolation
  cases v.severity <;> rfl

theorem addViolation_error_count (r : LintResult) (v : RuleViolation) :
    (r.addViolation v).error_count
      = r.error_count + (if v.severity == Severity.ERROR then 1 else 0) := by
  unfold LintResult.addViolation
  cases v.severity <;> rfl

theorem addViolation_warning_count (r : LintResult) (v : RuleViolation) :
    (r.addViolation v).warning_count
      = r.warning_count + (if v.severity == Severity.WARN then 1 else 0) := by
  unfold LintResult.addViolation
  cases v.severity <;> rfl

theorem foldl_addViolation_violations (vs : List RuleViolation) :
    ∀ r : LintResult, (vs.foldl LintResult.addViolation r).violations
      = r.violations ++ vs := by
  induction vs with
  | nil => intro r; simp
  | cons v tl ih =>
    intro r
    rw [List.foldl_cons, ih, addViolation_violations]
    simp

theorem foldl_addViolation_error_count (vs : List RuleViolation) :
    ∀ r : LintResult, (vs.foldl LintResult.addViolation r).error_count
      = r.error_count + vs.countP (fun v => v.severity == Severity.ERROR) := by
  induction vs with
  | nil => intro r; simp
  | cons v tl ih =>
    intro r
    rw [List.foldl_cons, ih, addViolation_error_count, List.countP_cons]
    omega

theorem foldl_addViolation_warning_count (vs : List RuleViolation) :
    ∀ r : LintResult, (vs.foldl LintResult.addViolation r).warning_count
      = r.warning_count + vs.countP (fun v => v.severity == Severity.WARN) := by
  induction vs with
  | nil => intro r; simp
  | cons v tl ih =>
    intro r
    rw [List.foldl_cons, ih, addViolation_warning_count, List.countP_cons]
    omega

theorem lint_foldl_violations (pr : ParseResult) (rs : List RuleInstance) :
    ∀ res : LintResult,
      (rs.foldl
        (fun res rule =>
          if rule.isEnabled && supportsLanguage rule.cls.supported_languages pr.language then
            (rule.runCheck pr).foldl LintResult.addViolation res
          else res)
        res).violations
      = res.violations
        ++ rs.flatMap (fun rule =>
            if rule.isEnabled && supportsLanguage rule.cls.supported_languages pr.language then
              rule.runCheck pr
            else []) := by
  induction rs with
  | nil => intro res; simp
  | cons rule tl ih =>
    intro res
    rw [List.foldl_cons, List.flatMap_cons]
    by_cases hp : rule.isEnabled && supportsLanguage rule.cls.supported_languages pr.language
    · rw [if_pos hp, if_pos hp, ih, foldl_addViolation_violations]
      simp
    · rw [if_neg hp, if_neg hp, ih]
      simp

theorem lint_violations (e : EngineState) (pr : ParseResult) :
    (lint e pr).violations
      = e.rules.values.flatMap (fun rule =>
          if rule.isEnabled && supportsLanguage rule.cls.supported_languages pr.language then
            rule.runCheck pr
          else []) := by
  unfold lint
  rw [lint_foldl_violations]
  rfl

theorem mem_runCheck_rule_id (r : RuleInstance) (pr : ParseResult) (v : RuleViolation)
    (h : v ∈ r.runCheck pr) : v.rule_id = r.cls.rule_id := by
  unfold RuleInstance.runCheck at h
  rcases List.mem_map.mp h with ⟨p, _, rfl⟩
  rfl

theorem lint_skips_disabled (e : EngineState) (pr : ParseResult) :
    lint e pr = lint (enabledOnly e) pr := by
  unfold lint enabledOnly PyDict.values
  simp only
  generalize ({ file_path := pr.file_path, parse_errors := pr.errors } : LintResult) = r0
  induction e.rules.entries generalizing r0 with
  | nil => rfl
  | cons p tl ih =>
    by_cases hp : p.2.isEnabled
    · rw [List.filter_cons_of_pos (by simpa using hp)]
      simp only [List.map_cons, List.foldl_cons]
      exact ih _
    · rw [List.filter_cons_of_neg (by simpa using hp)]
      simp only [List.map_cons, List.foldl_cons]
      rw [if_neg (by simp [hp])]
      exact ih r0

/-! ## Characterization of `_apply_config` -/

/-- The instance list `_apply_config` rebuilds, in registry insertion
order: each registered id contributes its materialized instance, OFF ids
are skipped, and an unparseable severity fails the whole pass. -/
def builtRules (cfg : RuleConfig) : List (String × RuleClass) →
    Option (List (String × RuleInstance))
  | [] => some []
  | p :: rest =>
    match resolveEntry cfg p.1 p.2 with
    | none => none
    | some none => builtRules cfg rest
    | some (some inst) => (builtRules cfg rest).map (fun tl => (p.1, inst) :: tl)

theorem applyStep_none (cfg : RuleConfig) (p : String × RuleClass) :
    applyStep cfg none p = none := rfl

theorem applyStep_some (cfg : RuleConfig) (rules : PyDict RuleInstance)
    (p : String × RuleClass) :
    applyStep cfg (some rules) p
      = match resolveEntry cfg p.1 p.2 with
        | none => none
        | some none => some rules
        | some (some inst) => some (rules.set p.1 inst) := rfl

theorem applyConfig_foldl_none (cfg : RuleConfig) (es : List (String × RuleClass)) :
    es.foldl (applyStep cfg) (none : Option (PyDict RuleInstance)) = none := by
  induction es with
  | nil => rfl
  | cons p tl ih =>
    rw [List.foldl_cons, applyStep_none]
    exact ih

theorem applyConfig_foldl_eq_built (cfg : RuleConfig) (es : List (String × RuleClass)) :
    ∀ start : PyDict RuleInstance,
      (∀ p ∈ es, start.contains p.1 = false) → (es.map Prod.fst).Nodup →
      es.foldl (applyStep cfg) (some start)
      = (builtRules cfg es).map (fun tl => (⟨start.entries ++ tl⟩ : PyDict RuleInstance)) := by
  induction es with
  | nil =>
    intro start _ _
    cases start with
    | mk es0 => simp [builtRules]
  | cons p rest ih =>
    intro start hdisj hnd
    simp only [List.map_cons, List.nodup_cons] at hnd
    rw [List.foldl_cons, applyStep_some]
    cases hres : resolveEntry cfg p.1 p.2 with
    | none =>
      simp only [builtRules, hres]
      exact applyConfig_foldl_none cfg rest
    | some o =>
      cases o with
      | none =>
        simp only [builtRules, hres]
        exact ih start (fun q hq => hdisj q (List.mem_cons_of_mem p hq)) hnd.2
      | some inst =>
        simp only [builtRules, hres]
        have hset : (start.set p.1 inst).entries = start.entries ++ [(p.1, inst)] :=
          PyDict.entries_set_of_not_contains start p.1 inst (hdisj p (List.mem_cons_self p rest))
        have hdisj2 : ∀ q ∈ rest, (start.set p.1 inst).contains q.1 = false := by
          intro q hq
          show containsList q.1 (setList p.1 inst start.entries) = false
          rw [containsList_setList]
          have h1 : containsList q.1 start.entries = false :=
            hdisj q (List.mem_cons_of_mem p hq)
          have h2 : ¬ p.1 = q.1 := by
            intro hpq
            exact hnd.1 (hpq ▸ List.mem_map_of_mem Prod.fst hq)
          simp [h1, h2]
        rw [ih (start.set p.1 inst) hdisj2 hnd.2, hset]
        cases builtRules cfg rest with
        | none => rfl
        | some tl => simp

theorem applyConfigCore_eq_built (cfg : RuleConfig) (classes : PyDict RuleClass)
    (hnd : classes.nodupKeys) :
    applyConfigCore cfg classes
      = (builtRules cfg classes.entries).map
          (fun tl => (⟨tl⟩ : PyDict RuleInstance)) := by
  unfold applyConfigCore
  rw [applyConfig_foldl_eq_built cfg classes.entries PyDict.empty
    (fun p _ => rfl) hnd]
  cases builtRules cfg classes.entries with
  | none => rfl
  | some tl => simp [PyDict.empty]

theorem built_keys_subset (cfg : RuleConfig) :
    ∀ (es : List (String × RuleClass)) (tl : List (String × RuleInstance)),
      builtRules cfg es = some tl → ∀ x ∈ tl, x.1 ∈ es.map Prod.fst := by
  intro es
  induction es with
  | nil =>
    intro tl h x hx
    simp only [builtRules, Option.some.injEq] at h
    subst h
    simp at hx
  | cons p rest ih =>
    intro tl h x hx
    simp only [builtRules] at h
    cases hres : resolveEntry cfg p.1 p.2 with
    | none => rw [hres] at h; exact absurd h (by simp)
    | some o =>
      rw [hres] at h
      cases o with
      | none =>
        simp only at h
        exact List.mem_cons_of_mem p.1 (ih tl h x hx)
      | some inst =>
        simp only [Option.map_eq_some'] at h
        rcases h with ⟨tl2, htl2, rfl⟩
        rcases List.mem_cons.mp hx with h | h
        · subst h; simp
        · exact List.mem_cons_of_mem p.1 (ih tl2 htl2 x h)

theorem built_lookup (cfg : RuleConfig) (rid : String) :
    ∀ (es : List (String × RuleClass)) (tl : List (String × RuleInstance))
      (cls : RuleClass),
      (es.map Prod.fst).Nodup → builtRules cfg es = some tl →
      lookupList rid es = some cls →
      resolveEntry cfg rid cls = some (lookupList rid tl) := by
  intro es
  induction es with
  | nil => intro tl cls _ _ hc; exact absurd hc (by simp [lookupList])
  | cons p rest ih =>
    intro tl cls hnd h hc
    simp only [List.map_cons, List.nodup_cons] at hnd
    simp only [builtRules] at h
    simp only [lookupList] at hc
    by_cases hpk : p.1 == rid
    · have hp : p.1 = rid := by simpa using hpk
      rw [if_pos hpk] at hc
      injection hc with hcls
      subst hcls
      cases hres : resolveEntry cfg p.1 p.2 with
      | none => rw [hres] at h; exact absurd h (by simp)
      | some o =>
        rw [hres] at h
        cases o with
        | none =>
          have hnc : containsList rid tl = false := by
            rw [containsList_eq_false_iff]
            intro hmem
            rcases List.mem_map.mp hmem with ⟨x, hx, hxk⟩
            have := built_keys_subset cfg rest tl h x hx
            rw [hxk, ← hp] at this
            exact hnd.1 this
          rw [hp] at hres
          rw [hres, lookupList_eq_none rid tl hnc]
        | some inst =>
          simp only [Option.map_eq_some'] at h
          rcases h with ⟨tl2, _, rfl⟩
          rw [hp] at hres
          rw [hres]
          simp [lookupList, hpk]
    · rw [if_neg hpk] at hc
      cases hres : resolveEntry cfg p.1 p.2 with
      | none => rw [hres] at h; exact absurd h (by simp)
      | some o =>
        rw [hres] at h
        cases o with
        | none => exact ih tl cls hnd.2 h hc
        | some inst =>
          simp only [Option.map_eq_some'] at h
          rcases h with ⟨tl2, htl2, rfl⟩
          rw [ih tl2 cls hnd.2 htl2 hc]
          simp [lookupList, hpk]

theorem applyConfigCore_get (cfg : RuleConfig) (classes : PyDict RuleClass)
    (rules : PyDict RuleInstance) (rid : String) (cls : RuleClass)
    (hnd : classes.nodupKeys) (h : applyConfigCore cfg classes = some rules)
    (hc : classes.get rid = some cls) :
    resolveEntry cfg rid cls = some (rules.get rid) := by
  rw [applyConfigCore_eq_built cfg classes hnd] at h
  simp only [Option.map_eq_some'] at h
  rcases h with ⟨tl, htl, rfl⟩
  exact built_lookup cfg rid classes.entries tl cls hnd htl hc

theorem lookupList_none_iff {V : Type} (k : String) :
    ∀ es : List (String × V), lookupList k es = none ↔ containsList k es = false := by
  intro es
  induction es with
  | nil => simp [lookupList, containsList]
  | cons p rest ih =>
    by_cases hpk : p.1 == k
    · simp [lookupList, containsList, hpk]
    · simp [lookupList, containsList, hpk, ih]

theorem resolveEntry_congr (cfg1 cfg2 : RuleConfig) (rid : String) (cls : RuleClass)
    (h : cfg1.rules.get rid = cfg2.rules.get rid) :
    resolveEntry cfg1 rid cls = resolveEntry cfg2 rid cls := by
  unfold resolveEntry
  rw [h]

theorem applyConfig_foldl_congr (cfg1 cfg2 : RuleConfig) :
    ∀ es : List (String × RuleClass),
      (∀ p ∈ es, cfg1.rules.get p.1 = cfg2.rules.get p.1) →
      ∀ acc, es.foldl (applyStep cfg1) acc = es.foldl (applyStep cfg2) acc := by
  intro es
  induction es with
  | nil => intro _ acc; rfl
  | cons p rest ih =>
    intro h acc
    rw [List.foldl_cons, List.foldl_cons]
    have hstep : applyStep cfg1 acc p = applyStep cfg2 acc p := by
      unfold applyStep
      rw [resolveEntry_congr cfg1 cfg2 p.1 p.2 (h p (List.mem_cons_self p rest))]
    rw [hstep]
    exact ih (fun q hq => h q (List.mem_cons_of_mem p hq)) _

theorem applyConfig_foldl_not_contains (cfg : RuleConfig) (rid : String) :
    ∀ (es : List (String × RuleClass)) (start : PyDict RuleInstance)
      (rules : PyDict RuleInstance),
      (∀ p ∈ es, ¬ p.1 = rid) → start.contains rid = false →
      es.foldl (applyStep cfg) (some start) = some rules →
      rules.contains rid = false := by
  intro es
  induction es with
  | nil =>
    intro start rules _ hs h
    injection h with h
    subst h
    exact hs
  | cons p rest ih =>
    intro start rules hne hs h
    rw [List.foldl_cons, applyStep_some] at h
    cases hres : resolveEntry cfg p.1 p.2 with
    | none =>
      rw [hres] at h
      rw [applyConfig_foldl_none] at h
      exact absurd h (by simp)
    | some o =>
      rw [hres] at h
      cases o with
      | none =>
        exact ih start rules (fun q hq => hne q (List.mem_cons_of_mem p hq)) hs h
      | some inst =>
        refine ih (start.set p.1 inst) rules (fun q hq => hne q (List.mem_cons_of_mem p hq)) ?_ h
        show containsList rid (setList p.1 inst start.entries) = false
        rw [containsList_setList]
        have h2 : ¬ p.1 = rid := hne p (List.mem_cons_self p rest)
        simp only [PyDict.contains] at hs
        simp [hs, h2]

theorem loadPreset_nodup (n : String) : (loadPreset n).rules.nodupKeys := by
  unfold loadPreset
  split_ifs <;> decide

theorem get_foldl_set_map {V W : Type} (f : W → V) (k : String) :
    ∀ (es : List (String × W)) (d : PyDict V), (es.map Prod.fst).Nodup →
      ((es.foldl (fun acc p => acc.set p.1 (f p.2)) d).get k)
        = pickLater (d.get k) ((lookupList k es).map f) := by
  intro es
  induction es with
  | nil => intro d _; rfl
  | cons p tl ih =>
    intro d hnd
    simp only [List.map_cons, List.nodup_cons] at hnd
    rw [List.foldl_cons, ih _ hnd.2]
    by_cases hpk : p.1 == k
    · have hp : p.1 = k := by simpa using hpk
      have htl : containsList k tl = false := by
        rw [containsList_eq_false_iff, ← hp]
        exact hnd.1
      rw [lookupList_eq_none k tl htl]
      simp only [lookupList, hpk, if_true, Option.map_some', Option.map_none', pickLater]
      rw [← hp]
      exact d.get_set_self p.1 (f p.2)
    · have hk : ¬ k = p.1 := fun h => hpk (by simp [h])
      simp only [lookupList, hpk, if_false]
      cases lookupList k tl with
      | some w => rfl
      | none =>
        simp only [Option.map_none', pickLater]
        exact d.get_set_ne p.1 k (f p.2) hk

theorem PyDict.get_update {V : Type} (d s : PyDict V) (k : String) (h : s.nodupKeys) :
    (d.update s).get k = pickLater (d.get k) (s.get k) := by
  have hh := get_foldl_set_map (fun (v : V) => v) k s.entries d h
  simpa [PyDict.get, Option.map_id'] using hh

theorem merged_presets_get (rid : String) :
    ∀ (names : List String) (d : PyDict RuleEntry),
      ((names.foldl (fun acc n => acc.update (loadPreset n).rules) d).get rid)
        = names.foldl
            (fun acc n => pickLater acc ((loadPreset n).rules.get rid))
            (d.get rid) := by
  intro names
  induction names with
  | nil => intro d; rfl
  | cons n rest ih =>
    intro d
    rw [List.foldl_cons, List.foldl_cons, ih]
    congr 1
    exact PyDict.get_update d (loadPreset n).rules rid (loadPreset_nodup n)

/-! ## Concrete demonstration objects used by the witnesses -/

/-- A minimal violation payload for the demonstration rules. -/
def constPayload (msg : String) : VioPayload :=
  { message := msg, file_path := "demo", line_start := 1, line_end := 1 }

/-- A demonstration whole-file rule class. -/
def clsAlpha : RuleClass :=
  { rule_id := "demo/alpha"
    kind := CheckKind.wholeFile (fun _ _ => [constPayload "alpha"]) }

/-- A second demonstration whole-file rule class. -/
def clsBeta : RuleClass :=
  { rule_id := "demo/beta"
    kind := CheckKind.wholeFile (fun _ _ => [constPayload "beta"]) }

/-- An engine with the two demonstration rules registered, alpha first. -/
def engDemo : EngineState := registerRule (registerRule emptyEngine clsAlpha) clsBeta

/-- An empty configuration: every registered rule stays at its defaults. -/
def cfgDefault : RuleConfig := {}

/-- The demo engine after applying the empty configuration. -/
def engApplied : EngineState := (applyConfigE engDemo cfgDefault).getD emptyEngine

/-- A configuration turning the alpha demonstration rule off. -/
def cfgAlphaOff : RuleConfig :=
  { rules := ⟨[("demo/alpha", ⟨SevValue.str "off", PyDict.empty⟩)]⟩ }

/-- The demo engine after applying `cfgAlphaOff`. -/
def engAlphaOff : EngineState := (applyConfigE engDemo cfgAlphaOff).getD emptyEngine

/-- A parse result with no nodes in a language every rule supports. -/
def prDemo : ParseResult := { file_path := "demo.py", language := "python" }

/-- The demo engine after disabling the alpha rule and then re-enabling it
with `configure_rule`. -/
def engBackOn : EngineState :=
  ((configureRule
    ((configureRule engApplied "demo/alpha" (some Severity.OFF) none).toOption.getD emptyEngine)
    "demo/alpha" (some Severity.WARN) none).toOption.getD emptyEngine)

/-- A demonstration ERROR violation. -/
def vErrDemo : RuleViolation := createViolation "demo/alpha" Severity.ERROR (constPayload "e")

/-- A demonstration WARN violation. -/
def vWarnDemo : RuleViolation := createViolation "demo/beta" Severity.WARN (constPayload "w")

/-- A lint result holding exactly one ERROR violation. -/
def resOneErr : LintResult :=
  [vErrDemo].foldl LintResult.addViolation { file_path := "f1" }

/-- A lint result holding exactly one WARN violation. -/
def resOneWarn : LintResult :=
  [vWarnDemo].foldl LintResult.addViolation { file_path := "f2" }

/-- The report aggregating the two demonstration results. -/
def repDemo : LintReport :=
  [resOneErr, resOneWarn].foldl LintReport.addResult {}

/-- A function node with seven parameters, the first the reserved `self`. -/
def nodeParamsDemo : CodeNode :=
  { node_type := NodeType.FUNCTION, name := "process", line_start := 1, line_end := 3,
    params := ["self", "a", "b", "c", "d", "e", "f"] }

/-- A function node carrying only a name, for the naming-rule examples. -/
def nodeNamed (s : String) : CodeNode :=
  { node_type := NodeType.FUNCTION, name := s, line_start := 1, line_end := 1 }

/-- The own-rules section of a configuration document extending the
`recommended` preset and overriding one rule wholesale. -/
def dataC2 : ConfigData :=
  { extendsList := ["recommended"],
    rules := ⟨[("complexity/max-params",
      RawRuleConfig.dictForm (some (SevValue.str "error")) (some (maxOpt 2)))]⟩ }

/-! ## Remaining list helpers -/

theorem flatMap_of_map {α β γ : Type} (f : α → β) (g : β → List γ) :
    ∀ l : List α, (l.map f).flatMap g = l.flatMap (fun a => g (f a)) := by
  intro l
  induction l with
  | nil => rfl
  | cons a tl ih => simp [ih]

theorem map_flatMap_comm {α β γ : Type} (g : α → List β) (m : β → γ) :
    ∀ l : List α, ((l.flatMap g).map m) = l.flatMap (fun a => (g a).map m) := by
  intro l
  induction l with
  | nil => rfl
  | cons a tl ih => simp [ih]

theorem foldl_addResult_results (rs : List LintResult) :
    ∀ rep : LintReport, (rs.foldl LintReport.addResult rep).results = rep.results ++ rs := by
  induction rs with
  | nil => intro rep; simp
  | cons r tl ih =>
    intro rep
    rw [List.foldl_cons, ih]
    simp [LintReport.addResult]

theorem resolveEntry_absent (cfg : RuleConfig) (rid : String) (cls : RuleClass)
    (h : cfg.rules.get rid = none) :
    resolveEntry cfg rid cls = some (some (mkRule cls none none)) := by
  unfold resolveEntry
  rw [h]

theorem resolveEntry_entry_off (cfg : RuleConfig) (rid : String) (cls : RuleClass)
    (entry : RuleEntry) (h1 : cfg.rules.get rid = some entry)
    (h2 : parseSeverity entry.severity = some Severity.OFF) :
    resolveEntry cfg rid cls = some none := by
  unfold resolveEntry
  rw [h1]
  simp [h2]

theorem resolveEntry_entry_on (cfg : RuleConfig) (rid : String) (cls : RuleClass)
    (entry : RuleEntry) (sev : Severity) (h1 : cfg.rules.get rid = some entry)
    (h2 : parseSeverity entry.severity = some sev) (h3 : sev ≠ Severity.OFF) :
    resolveEntry cfg rid cls = some (some (mkRule cls (some sev) (some entry.options))) := by
  unfold resolveEntry
  rw [h1]
  simp [h2, h3]

theorem applyConfigE_core (e : EngineState) (cfg : RuleConfig) (e2 : EngineState)
    (h : applyConfigE e cfg = some e2) :
    applyConfigCore cfg e.rule_classes = some e2.rules := by
  unfold applyConfigE at h
  cases hc2 : applyConfigCore cfg e.rule_classes with
  | none => rw [hc2] at h; exact absurd h (by simp)
  | some rs =>
    rw [hc2] at h
    simp only [Option.map_some', Option.some.injEq] at h
    rw [← h]

/-! ## The claims -/

/-- C1: after applying a configuration, every registered rule id whose
config entry resolves to severity OFF has no instance; one with a non-OFF
resolved severity has an instance built from that severity and the entry's
options; and one with no entry has an instance built from the class's own
default severity and default options. -/
theorem apply_configuration_per_rule
    (e : EngineState) (cfg : RuleConfig) (e2 : EngineState) (rid : String) (cls : RuleClass)
    (hnd : e.rule_classes.nodupKeys)
    (h : applyConfigE e cfg = some e2)
    (hc : e.rule_classes.get rid = some cls) :
    (∀ entry : RuleEntry, cfg.rules.get rid = some entry →
        (parseSeverity entry.severity = some Severity.OFF → e2.rules.get rid = none)
      ∧ (∀ sev : Severity, parseSeverity entry.severity = some sev → sev ≠ Severity.OFF →
          e2.rules.get rid = some (mkRule cls (some sev) (some entry.options))))
    ∧ (cfg.rules.get rid = none → e2.rules.get rid = some (mkRule cls none none)) := by
  have hcore := applyConfigE_core e cfg e2 h
  have hres := applyConfigCore_get cfg e.rule_classes e2.rules rid cls hnd hcore hc
  constructor
  · intro entry hentry
    constructor
    · intro hoff
      rw [resolveEntry_entry_off cfg rid cls entry hentry hoff] at hres
      injection hres with hres
      exact hres.symm
    · intro sev hsev hne
      rw [resolveEntry_entry_on cfg rid cls entry sev hentry hsev hne] at hres
      injection hres with hres
      exact hres.symm
  · intro habs
    rw [resolveEntry_absent cfg rid cls habs] at hres
    injection hres with hres
    exact hres.symm

/-- C1 witness: on the demo engine, applying the configuration that turns
the alpha rule off removes alpha's instance and leaves beta at its class
defaults. -/
theorem apply_configuration_per_rule_witness :
    applyConfigE engDemo cfgAlphaOff = some engAlphaOff
    ∧ engAlphaOff.rules.get "demo/alpha" = none
    ∧ engAlphaOff.rules.get "demo/beta" = some (mkRule clsBeta none none) := by
  refine ⟨rfl, ?_, ?_⟩
  · exact (((apply_configuration_per_rule engDemo cfgAlphaOff engAlphaOff "demo/alpha"
      clsAlpha (by decide) rfl rfl).1 ⟨SevValue.str "off", PyDict.empty⟩ rfl).1 rfl)
  · exact ((apply_configuration_per_rule engDemo cfgAlphaOff engAlphaOff "demo/beta"
      clsBeta (by decide) rfl rfl).2 rfl)

/-- C2: resolving a configuration document merges the extended presets'
rule maps left to right (a later preset's entry for an id overrides an
earlier one's), and each id in the document's own rules section then
replaces the merged entry wholesale with its parsed `{severity, options}`
record — no field-by-field merge. -/
theorem from_dict_wholesale_override (data : ConfigData) (rid : String)
    (hnd : data.rules.nodupKeys) :
    (RuleConfig.fromDict data).rules.get rid
      = pickLater
          (data.extendsList.foldl
            (fun acc n => pickLater acc ((loadPreset n).rules.get rid)) none)
          ((data.rules.get rid).map parseRuleConfig) := by
  unfold RuleConfig.fromDict
  simp only
  rw [get_foldl_set_map parseRuleConfig rid data.rules.entries _ hnd]
  congr 1
  exact merged_presets_get rid data.extendsList PyDict.empty

/-- C2 witness: a document extending `recommended` and overriding
`complexity/max-params` resolves that id to exactly the override and an
untouched id to exactly the recommended value. -/
theorem from_dict_wholesale_override_witness :
    dataC2.rules.nodupKeys
    ∧ (RuleConfig.fromDict dataC2).rules.get "complexity/max-params"
        = some ⟨SevValue.str "error", maxOpt 2⟩
    ∧ (RuleConfig.fromDict dataC2).rules.get "complexity/max-complexity"
        = some (sentry "warn" (maxOpt 10)) := by
  refine ⟨by decide, ?_, ?_⟩
  · have h := from_dict_wholesale_override dataC2 "complexity/max-params" (by decide)
    rw [h]
    rfl
  · have h := from_dict_wholesale_override dataC2 "complexity/max-complexity" (by decide)
    rw [h]
    rfl

/-- C3: after `configure_rule(id, OFF)` the engine's `get_rule(id)` is
absent and no lint result can contain a violation carrying that rule id;
more generally lint only runs the enabled instances, filtering in the
engine rather than inside the rules. -/
theorem configure_off_gate
    (e : EngineState) (rid : String) (opts : Option Options) (e2 : EngineState)
    (hwf : ∀ p ∈ e.rules.entries, p.2.cls.rule_id = p.1)
    (h : configureRule e rid (some Severity.OFF) opts = Except.ok e2) :
    getRule e2 rid = none
    ∧ (∀ pr : ParseResult, ∀ v ∈ (lint e2 pr).violations, v.rule_id ≠ rid)
    ∧ (∀ (e3 : EngineState) (pr : ParseResult), lint e3 pr = lint (enabledOnly e3) pr) := by
  have he2 : e2 = { e with rules := e.rules.erase rid } := by
    unfold configureRule at h
    cases hcg : e.rule_classes.get rid with
    | none => rw [hcg] at h; exact absurd h (by simp)
    | some cls =>
      rw [hcg] at h
      simp at h
      exact h.symm
  subst he2
  refine ⟨PyDict.get_erase_self e.rules rid, ?_, fun e3 pr => lint_skips_disabled e3 pr⟩
  intro pr v hv
  rw [lint_violations] at hv
  rcases List.mem_flatMap.mp hv with ⟨rule, hrule, hvr⟩
  by_cases hp : rule.isEnabled && supportsLanguage rule.cls.supported_languages pr.language
  · rw [if_pos hp] at hvr
    have hid := mem_runCheck_rule_id rule pr v hvr
    rcases List.mem_map.mp hrule with ⟨q, hq, rfl⟩
    rcases List.mem_filter.mp hq with ⟨hqmem, hqne⟩
    rw [hid, hwf q hqmem]
    simpa using hqne
  · rw [if_neg hp] at hvr
    simp at hvr

/-- C3 witness: disabling the alpha rule on the configured demo engine
makes `get_rule` return absent for it. -/
theorem configure_off_gate_witness :
    configureRule engApplied "demo/alpha" (some Severity.OFF) none
      = Except.ok { engApplied with rules := engApplied.rules.erase "demo/alpha" }
    ∧ getRule { engApplied with rules := engApplied.rules.erase "demo/alpha" } "demo/alpha"
      = none := by
  refine ⟨rfl, ?_⟩
  exact (configure_off_gate engApplied "demo/alpha" none
    { engApplied with rules := engApplied.rules.erase "demo/alpha" } (by decide) rfl).1

/-- C4: `configure_rule` on an id that was never registered fails with an
error, while a bulk configuration document mentioning an unregistered id
succeeds identically with or without that entry — the unknown id is
silently skipped and never materializes an instance. -/
theorem unknown_rule_id_asymmetry (e : EngineState) (rid : String)
    (h : e.rule_classes.get rid = none) :
    (∀ (sev : Option Severity) (opts : Option Options),
        configureRule e rid sev opts = Except.error ("未知规则: " ++ rid))
    ∧ (∀ (cfg : RuleConfig) (raw : RuleEntry),
        applyConfigCore { cfg with rules := cfg.rules.set rid raw } e.rule_classes
          = applyConfigCore cfg e.rule_classes)
    ∧ (∀ (cfg : RuleConfig) (rules : PyDict RuleInstance),
        applyConfigCore cfg e.rule_classes = some rules → rules.get rid = none) := by
  have hkeys : ∀ p ∈ e.rule_classes.entries, ¬ p.1 = rid := by
    intro p hp hpk
    have hnc : containsList rid e.rule_classes.entries = false :=
      (lookupList_none_iff rid e.rule_classes.entries).mp h
    rw [containsList_eq_false_iff] at hnc
    exact hnc (hpk ▸ List.mem_map_of_mem Prod.fst hp)
  refine ⟨?_, ?_, ?_⟩
  · intro sev opts
    unfold configureRule
    rw [h]
  · intro cfg raw
    unfold applyConfigCore
    apply applyConfig_foldl_congr
    intro p hp
    exact PyDict.get_set_ne cfg.rules rid p.1 raw (hkeys p hp)
  · intro cfg rules hc
    unfold applyConfigCore at hc
    have hnc := applyConfig_foldl_not_contains cfg rid e.rule_classes.entries
      PyDict.empty rules hkeys rfl hc
    exact (lookupList_none_iff rid rules.entries).mpr hnc

/-- C4 witness: a gamma id that was never registered makes `configure_rule`
fail on the demo engine. -/
theorem unknown_rule_id_asymmetry_witness :
    engDemo.rule_classes.get "demo/gamma" = none
    ∧ configureRule engDemo "demo/gamma" none none
        = Except.error "未知规则: demo/gamma" := by
  refine ⟨rfl, ?_⟩
  exact (unknown_rule_id_asymmetry engDemo "demo/gamma" rfl).1 none none

/-- C5: a lint result built by adding violations counts exactly the ERROR
and WARN violations it contains, and a report aggregates the per-result
counters by summation; in particular one 1-error result plus one 1-warning
result yield totals of 1 error, 1 warning, 2 violations and 2 files with
issues. -/
theorem lint_counters_and_report_totals :
    (∀ (fp : String) (pes : List String) (vs : List RuleViolation),
        (vs.foldl LintResult.addViolation { file_path := fp, parse_errors := pes }).violations
          = vs
      ∧ (vs.foldl LintResult.addViolation { file_path := fp, parse_errors := pes }).error_count
          = vs.countP (fun v => v.severity == Severity.ERROR)
      ∧ (vs.foldl LintResult.addViolation { file_path := fp, parse_errors := pes }).warning_count
          = vs.countP (fun v => v.severity == Severity.WARN))
    ∧ (∀ rs : List LintResult,
        (rs.foldl LintReport.addResult {}).results = rs
      ∧ (rs.foldl LintReport.addResult {}).totalErrors
          = (rs.map (fun r => r.error_count)).sum
      ∧ (rs.foldl LintReport.addResult {}).totalWarnings
          = (rs.map (fun r => r.warning_count)).sum
      ∧ (rs.foldl LintReport.addResult {}).totalViolations
          = (rs.map (fun r => r.violations.length)).sum
      ∧ (rs.foldl LintReport.addResult {}).filesWithIssues
          = rs.countP (fun r => r.hasIssues))
    ∧ repDemo.totalErrors = 1 ∧ repDemo.totalWarnings = 1
    ∧ repDemo.totalViolations = 2 ∧ repDemo.filesWithIssues = 2
    ∧ repDemo.totalFiles = 2 := by
  have hresults : ∀ rs : List LintResult, (rs.foldl LintReport.addResult {}).results = rs := by
    intro rs
    rw [foldl_addResult_results]
    rfl
  refine ⟨?_, ?_, rfl, rfl, rfl, rfl, rfl⟩
  · intro fp pes vs
    refine ⟨?_, ?_, ?_⟩
    · rw [foldl_addViolation_violations]
      rfl
    · rw [foldl_addViolation_error_count]
      simp
    · rw [foldl_addViolation_warning_count]
      simp
  · intro rs
    refine ⟨hresults rs, ?_, ?_, ?_, ?_⟩
    · unfold LintReport.totalErrors
      rw [hresults rs]
    · unfold LintReport.totalWarnings
      rw [hresults rs]
    · unfold LintReport.totalViolations
      rw [hresults rs]
    · unfold LintReport.filesWithIssues
      rw [hresults rs]

/-- C6 counterexample: on an engine with alpha registered before beta,
disabling alpha and re-enabling it with `configure_rule` makes lint emit
beta's violations before alpha's — not registry insertion order, because
the Python dict reinserts alpha at the end. -/
theorem lint_order_counterexample :
    getRegisteredRules engBackOn = ["demo/alpha", "demo/beta"]
    ∧ (lint engBackOn prDemo).violations.map (fun v => v.rule_id)
        = ["demo/beta", "demo/alpha"]
    ∧ (["demo/beta", "demo/alpha"] : List String) ≠ ["demo/alpha", "demo/beta"] := by
  refine ⟨rfl, rfl, by decide⟩

/-- C6 amended: right after `apply_configuration`, lint does evaluate the
materialized instances in registry insertion order (the rebuilt instance
list follows the registry), each active rule contributing its block of
violations, and a node-targeted rule's block follows `outcome.nodes`
order; but a `configure_rule` call that re-materializes a currently absent
(e.g. previously disabled) rule appends it at the end of the iteration
order instead of restoring its registry position. -/
theorem lint_order_after_apply_configuration
    (e : EngineState) (cfg : RuleConfig) (e2 : EngineState) (pr : ParseResult)
    (hnd : e.rule_classes.nodupKeys) (h : applyConfigE e cfg = some e2) :
    builtRules cfg e.rule_classes.entries = some e2.rules.entries
    ∧ (lint e2 pr).violations
        = e2.rules.entries.flatMap (fun p =>
            if p.2.isEnabled && supportsLanguage p.2.cls.supported_languages pr.language
            then p.2.runCheck pr else [])
    ∧ (∀ (inst : RuleInstance) (targets : List NodeType)
          (f : Options → CodeNode → ParseResult → List VioPayload),
        inst.cls.kind = CheckKind.nodeTargeted targets f →
        supportsLanguage inst.cls.supported_languages pr.language = true →
        inst.runCheck pr
          = (pr.nodes.filter (shouldCheckNode targets)).flatMap
              (fun n => (f inst.options n pr).map
                (createViolation inst.cls.rule_id inst.severity)))
    ∧ (∀ (eng : EngineState) (rid : String) (cls : RuleClass) (sev : Option Severity)
          (opts : Option Options),
        eng.rule_classes.get rid = some cls → ¬ sev = some Severity.OFF →
        eng.rules.contains rid = false →
        configureRule eng rid sev opts
          = Except.ok { eng with
              rules := ⟨eng.rules.entries ++ [(rid, mkRule cls sev opts)]⟩ }) := by
  have hcore := applyConfigE_core e cfg e2 h
  rw [applyConfigCore_eq_built cfg e.rule_classes hnd] at hcore
  refine ⟨?_, ?_, ?_, ?_⟩
  · cases hb : builtRules cfg e.rule_classes.entries with
    | none => rw [hb] at hcore; exact absurd hcore (by simp)
    | some tl =>
      rw [hb] at hcore
      simp only [Option.map_some', Option.some.injEq] at hcore
      rw [← hcore]
  · rw [lint_violations]
    unfold PyDict.values
    rw [flatMap_of_map]
  · intro inst targets f hkind hlang
    unfold RuleInstance.runCheck checkKindRun
    rw [hkind]
    simp only [hlang, if_true]
    rw [map_flatMap_comm]
  · intro eng rid cls sev opts hcg hsev hnc
    unfold configureRule
    rw [hcg]
    simp only [if_neg hsev]
    have h2 := PyDict.entries_set_of_not_contains eng.rules rid (mkRule cls sev opts) hnc
    have h1 : eng.rules.set rid (mkRule cls sev opts)
        = (⟨eng.rules.entries ++ [(rid, mkRule cls sev opts)]⟩ : PyDict RuleInstance) :=
      congrArg PyDict.mk h2
    rw [h1]

/-- C6 amended witness: the amended order facts hold for the demo engine's
configuration pass. -/
theorem lint_order_after_apply_configuration_witness :
    applyConfigE engDemo cfgDefault = some engApplied
    ∧ builtRules cfgDefault engDemo.rule_classes.entries = some engApplied.rules.entries :=
  ⟨rfl, (lint_order_after_apply_configuration engDemo cfgDefault engApplied prDemo
    (by decide) rfl).1⟩

/-- C7: applying the same configuration twice in succession leaves the
engine exactly as after the first application — the instance set is
rebuilt identically, never accumulated. -/
theorem apply_configuration_idempotent (e : EngineState) (cfg : RuleConfig)
    (e2 : EngineState) (h : applyConfigE e cfg = some e2) :
    applyConfigE e2 cfg = some e2 := by
  unfold applyConfigE at h ⊢
  cases hc2 : applyConfigCore cfg e.rule_classes with
  | none => rw [hc2] at h; exact absurd h (by simp)
  | some rs =>
    rw [hc2] at h
    simp only [Option.map_some', Option.some.injEq] at h
    rw [← h]
    rw [show ({ e with rules := rs, config := some cfg } : EngineState).rule_classes
        = e.rule_classes from rfl, hc2]
    rfl

/-- C7 witness: re-applying the default configuration to the already
configured demo engine reproduces it exactly. -/
theorem apply_configuration_idempotent_witness :
    applyConfigE engDemo cfgDefault = some engApplied
    ∧ applyConfigE engApplied cfgDefault = some engApplied :=
  ⟨rfl, apply_configuration_idempotent engDemo cfgDefault engApplied rfl⟩

/-- C8: the max-params body counts `node.params` minus the exact reserved
names `self` and `cls`, emits exactly one violation precisely when the
filtered count exceeds `options.max` (default 5), with metadata carrying
the filtered names and the actual/max counts; the rule targets function
and method nodes; and the spec's seven-parameter example produces exactly
the predicted metadata. -/
theorem max_params_filtered_count (opts : Options) (node : CodeNode) (pr : ParseResult) :
    ((maxParamsCheckNode opts node pr).map (fun v => v.metadata)
      = if ((node.params.filter (fun p => p != "self" && p != "cls")).length : Int)
            > optInt opts "max" 5 then
          [[("actual", MetaVal.int ((node.params.filter
                (fun p => p != "self" && p != "cls")).length : Int)),
            ("max", MetaVal.int (optInt opts "max" 5)),
            ("params", MetaVal.strList (node.params.filter
                (fun p => p != "self" && p != "cls")))]]
        else [])
    ∧ targetsOf maxParamsCls.kind = [NodeType.FUNCTION, NodeType.METHOD]
    ∧ (maxParamsCheckNode (maxOpt 5) nodeParamsDemo prDemo).map (fun v => v.metadata)
        = [[("actual", MetaVal.int 6), ("max", MetaVal.int 5),
            ("params", MetaVal.strList ["a", "b", "c", "d", "e", "f"])]] := by
  refine ⟨?_, rfl, rfl⟩
  by_cases hgt : ((node.params.filter (fun p => p != "self" && p != "cls")).length : Int)
      > optInt opts "max" 5
  · simp [maxParamsCheckNode, hgt]
  · simp [maxParamsCheckNode, hgt]

/-- C9: the function-naming body first exempts names of the dunder shape,
then flags a name exactly when it fails the pattern selected by
`options.style` from the fixed three-entry table; under the default
snake_case style, `myFunction` is flagged while `__init__` (exempt) and
`my_function` (matching) are not. -/
theorem function_naming_dunder_and_style (opts : Options) (node : CodeNode)
    (pr : ParseResult) :
    ((functionNamingCheckNode opts node pr).length
      = match patternOf (optStr opts "style" "snake_case") with
        | none => 0
        | some pat =>
          if pyFullMatch dunderCore node.name then 0
          else if patMatches pat node.name then 0 else 1)
    ∧ (functionNamingCheckNode PyDict.empty (nodeNamed "myFunction") prDemo).length = 1
    ∧ functionNamingCheckNode PyDict.empty (nodeNamed "__init__") prDemo = []
    ∧ functionNamingCheckNode PyDict.empty (nodeNamed "my_function") prDemo = []
    ∧ patternOf "snake_case" = some "^[a-z_][a-z0-9_]*$"
    ∧ patternOf "camelCase" = some "^[a-z][a-zA-Z0-9]*$"
    ∧ patternOf "PascalCase" = some "^[A-Z][a-zA-Z0-9]*$"
    ∧ targetsOf functionNamingCls.kind = [NodeType.FUNCTION, NodeType.METHOD] := by
  refine ⟨?_, rfl, rfl, rfl, rfl, rfl, rfl, rfl⟩
  cases hp : patternOf (optStr opts "style" "snake_case") with
  | none => simp [functionNamingCheckNode, hp]
  | some pat =>
    by_cases hd : pyFullMatch dunderCore node.name
    · simp [functionNamingCheckNode, hp, hd]
    · by_cases hm : patMatches pat node.name
      · simp [functionNamingCheckNode, hp, hd, hm]
      · simp [functionNamingCheckNode, hp, hd, hm]

/-- C10: a rule instance's effective options are the class defaults
overlaid with the supplied record — supplied keys win, missing keys fall
back to the class default — and an empty or absent options record restores
the defaults exactly. -/
theorem instance_options_overlay (cls : RuleClass) (sev : Option Severity)
    (opts : Options) (k : String) (hnd : opts.nodupKeys) :
    (mkRule cls sev (some opts)).options.get k
      = pickLater (cls.default_options.get k) (opts.get k)
    ∧ (mkRule cls sev (some PyDict.empty)).options = cls.default_options
    ∧ (mkRule cls sev none).options = cls.default_options := by
  refine ⟨?_, rfl, rfl⟩
  exact PyDict.get_update cls.default_options opts k hnd

/-- C10 witness: configuring max-params with only `{max: 2}` keeps the
supplied value for `max`. -/
theorem instance_options_overlay_witness :
    (maxOpt 2).nodupKeys
    ∧ (mkRule maxParamsCls none (some (maxOpt 2))).options.get "max"
        = some (OptVal.int 2) := by
  refine ⟨by decide, ?_⟩
  have h := (instance_options_overlay maxParamsCls none (maxOpt 2) "max" (by decide)).1
  rw [h]
  rfl

end ABrick
